import Mathlib

/-!
Shallow embedding of the eessh binary-packet-protocol stream layer
(`src/ssh/stream.c`) and of the DH exchange-hash assembly
(`src/ssh/kex_dh.c`), with theorems checking the natural-language
specification against the code.

Octets are modelled as `Nat` values (< 256 wherever the C code stores
them in a byte); buffers are `List Nat`.  External collaborators
(cipher, MAC, CSPRNG, socket) are parameters of the embedded
functions, following the collaborator contracts of the spec:
the socket offers `read_exact` / `write_all` with no partial reads,
the cipher's `crypt` writes exactly as many octets as it reads, and
the MAC's `compute` writes exactly `mac_len` octets.
-/

/-- Big-endian 4-octet encoding of a 32-bit value, as written by
`ssh_buf_set_u32` / `ssh_buf_write_u32` (each octet reduced mod 256,
so the value is taken mod 2^32 like a C `uint32_t`). -/
def u32be (v : Nat) : List Nat :=
  [v / 2 ^ 24 % 256, v / 2 ^ 16 % 256, v / 2 ^ 8 % 256, v % 256]

/-- Big-endian read of the first four octets of a buffer
(`ssh_buf_get_u32`). -/
def ssh_buf_get_u32 (l : List Nat) : Nat :=
  l.getD 0 0 * 2 ^ 24 + l.getD 1 0 * 2 ^ 16 + l.getD 2 0 * 2 ^ 8 + l.getD 3 0

/-- Cipher slot of a stream: `SSH_CIPHER_NONE` vs. an installed cipher.
Only the none/installed distinction is observable in `stream.c`. -/
inductive SSH_CIPHER_TYPE where
  | none
  | cipher
deriving DecidableEq, Repr

/-- MAC slot of a stream: `SSH_MAC_NONE` vs. an installed MAC. -/
inductive SSH_MAC_TYPE where
  | none
  | mac
deriving DecidableEq, Repr

/-- The per-direction stream state (`struct SSH_STREAM`).  The opaque
`cipher_ctx` / `mac_ctx` pointers are modelled as `Option Unit`
(present or NULL); the actual cryptographic transformations are
passed to the operations as function parameters. -/
structure SSH_STREAM where
  seq_num : Nat
  pack : List Nat
  pack_enc : List Nat
  net_buffer : List Nat
  cipher_type : SSH_CIPHER_TYPE
  cipher_block_len : Nat
  cipher_ctx : Option Unit
  mac_type : SSH_MAC_TYPE
  mac_len : Nat
  mac_ctx : Option Unit
deriving DecidableEq, Repr

/-- `ssh_stream_init` (stream.c:17-31): zero sequence number, empty
buffers, no cipher, no MAC. -/
def ssh_stream_init : SSH_STREAM :=
  { seq_num := 0
    pack := []
    pack_enc := []
    net_buffer := []
    cipher_type := .none
    cipher_block_len := 0
    cipher_ctx := Option.none
    mac_type := .none
    mac_len := 0
    mac_ctx := Option.none }

/-- `ssh_stream_new_packet` (stream.c:83-91): clear the packet buffer
and reserve five octets (u32 length placeholder and pad-length byte). -/
def ssh_stream_new_packet (st : SSH_STREAM) : SSH_STREAM :=
  { st with pack := u32be 0 ++ [0] }

/-- A new packet whose payload has been appended by the caller
(the builder contract of spec section 4.2). -/
def build_packet (st : SSH_STREAM) (payload : List Nat) : SSH_STREAM :=
  { st with pack := (ssh_stream_new_packet st).pack ++ payload }

/-- `calc_pad_len` (stream.c:93-105).  `block_size` is a C `uint8_t`
parameter (hence the initial `% 256`); `pad_len` is a `uint8_t`, so the
`pad_len += block_size` in the under-4 branch wraps mod 256. -/
def calc_pad_len (pack_len_before_padding : Nat) (block_size : Nat) : Nat :=
  let bs0 := block_size % 256
  let bs := if bs0 < 8 then 8 else bs0
  let pad := bs - pack_len_before_padding % bs
  if pad < 4 then (pad + bs) % 256 else pad

/-- The claim's padding formula, written from the spec's words
(section 4.2 step 1): `pad = block - ((payload_len + 5) mod block)`
with `block = max(cipher_block_len, 8)`, plus `block` if below 4. -/
def pad_len_spec (payload_len block : Nat) : Nat :=
  let r := block - (payload_len + 5) % block
  if r < 4 then r + block else r

/-- The plaintext framed packet produced by `finish_packet`
(stream.c:110-126): padding appended (fixed 0xFF filler when no
cipher is installed, CSPRNG octets otherwise), then the u32 length
field (`pack.len - 4`) and the pad-length byte written over the five
reserved octets. -/
def framed_packet (rand : Nat → List Nat) (st : SSH_STREAM) : List Nat :=
  let pad_len := calc_pad_len st.pack.length st.cipher_block_len
  let padding := if st.cipher_type = .none then List.replicate pad_len 0xff
                 else rand pad_len
  let pack1 := st.pack ++ padding
  u32be (pack1.length - 4) ++ [pad_len] ++ pack1.drop 5

/-- `finish_packet` (stream.c:110-147).  Returns the updated stream
(plaintext packet in `pack`, ciphertext in `pack_enc` when a cipher is
installed) together with the MAC octets that the C code writes past
the nominal end of the outgoing buffer.  Collaborators: `rand n` is
`crypto_random_gen` producing `n` octets, `encF` is
`ssh_cipher_crypt` with the stream's outbound context, and `macF` is
`ssh_mac_compute` applied to its already-concatenated input (see
`mac_input`). -/
def finish_packet (rand : Nat → List Nat) (encF : List Nat → List Nat)
    (macF : List Nat → List Nat) (st : SSH_STREAM) : SSH_STREAM × List Nat :=
  let pack2 := framed_packet rand st
  let st1 := if st.cipher_type = .none then { st with pack := pack2 }
             else { st with pack := pack2, pack_enc := encF pack2 }
  let macBytes := if st.mac_type = .none then []
                  else macF (u32be st1.seq_num ++ pack2)
  (st1, macBytes)

/-- Modelled from the spec: `ssh_mac_compute` (the hash/MAC module is
not under src/) computes the MAC over the 4-octet big-endian sequence
number concatenated with the packet octets (spec sections 4.2 step 5
and 6: `compute(ctx, out, seq_num_u32_be, packet_bytes)`).  The
embedded code passes `macF` the result of this function. -/
def mac_input (seq_num : Nat) (packet : List Nat) : List Nat :=
  u32be seq_num ++ packet

/-- Result of `ssh_stream_send_packet`: the updated stream, the octets
handed to `ssh_net_write_all` (`write_pack->data` for
`write_pack->len + mac_len` octets), and whether the call returned 0. -/
structure SendOut where
  stream : SSH_STREAM
  wire : List Nat
  ok : Bool
deriving DecidableEq, Repr

/-- `ssh_stream_send_packet` (stream.c:152-163).  `writeOk` is the
outcome of the `ssh_net_write_all` collaborator call (spec section 6:
`write_all` either writes everything or fails).  Note the order in the
source: `seq_num` is incremented after `finish_packet` succeeds and
before the socket write. -/
def ssh_stream_send_packet (rand : Nat → List Nat)
    (encF : List Nat → List Nat) (macF : List Nat → List Nat)
    (writeOk : Bool) (st : SSH_STREAM) : SendOut :=
  let r := finish_packet rand encF macF st
  let st2 := { r.1 with seq_num := (r.1.seq_num + 1) % 2 ^ 32 }
  let write_pack := if st.cipher_type = .none then st2.pack else st2.pack_enc
  { stream := st2, wire := write_pack ++ r.2, ok := writeOk }

/-- Error classification for the failure sites of
`ssh_stream_recv_packet` / `verify_read_packet` (the C code returns -1
with an error string; the constructors name the distinct checks, in
the spec's error taxonomy where it has a name for them). -/
inductive RECV_ERROR where
  /-- `stream_recv_data` could not obtain the requested octets
  (socket `read_exact` failure). -/
  | ioError
  /-- "invalid packet size" (stream.c:254-257). -/
  | invalidLength
  /-- "bad padding length" (stream.c:173-176). -/
  | invalidPadding
  /-- "bad padding len in received packet": packet size not a multiple
  of the block length (stream.c:178-182). -/
  | badAlign
  /-- "bad mac in incoming packet" (stream.c:191-197). -/
  | macMismatch
  /-- buffer-growth failure on a wrapped `remainder - mac_len`
  (stream.c:269, only reachable when `pack_len + 4 < first_block_len`). -/
  | allocError
deriving DecidableEq, Repr

/-- Outcome of `ssh_stream_recv_packet`: either the plaintext framed
packet (the first `pack_len + 4` octets of `stream->pack`) or the
error of the failing check. -/
inductive RecvResult where
  | ok (packet : List Nat)
  | err (e : RECV_ERROR)
deriving DecidableEq, Repr

/-- Full result of `ssh_stream_recv_packet`: updated stream (the C
code mutates it in place, also on failure), the unconsumed network
octets, and the outcome. -/
structure RecvOut where
  stream : SSH_STREAM
  net : List Nat
  result : RecvResult
deriving DecidableEq, Repr

/-- `stream_recv_data` (stream.c:204-222): take octets from the
read-ahead buffer first, then exactly the missing amount from the
network.  Returns the updated stream and network together with the
octets read, or `none` when the socket read fails (modelled as the
network list running out). -/
def stream_recv_data (st : SSH_STREAM) (net : List Nat) (n : Nat) :
    SSH_STREAM × List Nat × Option (List Nat) :=
  let fromBuf := min st.net_buffer.length n
  let d1 := st.net_buffer.take fromBuf
  let st' := { st with net_buffer := st.net_buffer.drop fromBuf }
  let need := n - fromBuf
  if need ≤ net.length then (st', net.drop need, some (d1 ++ net.take need))
  else (st', net, Option.none)

/-- `verify_read_packet` (stream.c:168-201) on the plaintext packet
(`stream->pack.data` for `stream->pack.len = pack_len + 4` octets) and
the received MAC octets stored just past it.  `none` means the packet
verified.  The MAC comparison is the `memcmp` over `mac_len` octets at
stream.c:191 (its data-dependent running time is modelled separately
by `memcmp_time`). -/
def verify_read_packet (macF : List Nat → List Nat) (st : SSH_STREAM)
    (packet macStored : List Nat) : Option RECV_ERROR :=
  if packet.getD 4 0 < 4 ∨ packet.getD 4 0 > packet.length - 5 then
    some .invalidPadding
  else
    let block_len := if st.cipher_block_len ≠ 0 then st.cipher_block_len else 8
    if packet.length % block_len ≠ 0 then some .badAlign
    else if st.mac_type ≠ .none then
      if (macF (mac_input st.seq_num packet)).take st.mac_len ≠
          macStored.take st.mac_len then some .macMismatch
      else Option.none
    else Option.none

/-- `ssh_stream_recv_packet` (stream.c:227-282).  `decF` is
`ssh_cipher_crypt` with the inbound cipher context `ctx` (the context
type `C` is abstract; decryption returns the output octets and the
advanced context), `macF` is `ssh_mac_compute` as in `finish_packet`,
and `net` is the stream of octets the socket will deliver.
`remainder` is computed in `uint32_t` arithmetic, hence the
`% 2 ^ 32` wrap when `first_block_len` exceeds
`pack_len + mac_len + 4`. -/
def ssh_stream_recv_packet {C : Type} (decF : C → List Nat → List Nat × C)
    (macF : List Nat → List Nat) (st : SSH_STREAM) (ctx : C)
    (net : List Nat) : RecvOut :=
  let first_block_len := if st.cipher_block_len = 0 then 8
                         else st.cipher_block_len
  let r1 := stream_recv_data st net first_block_len
  match r1.2.2 with
  | Option.none => ⟨r1.1, r1.2.1, .err .ioError⟩
  | some b1 =>
    let st1 := r1.1
    let net1 := r1.2.1
    let dec1 := decF ctx b1
    let p1 := if st.cipher_type = .none then b1 else dec1.1
    let pack_len := ssh_buf_get_u32 p1
    if pack_len = 0 ∨ pack_len > 65536 then ⟨st1, net1, .err .invalidLength⟩
    else
      let remainder := (pack_len + st.mac_len + 4 + 2 ^ 32 - first_block_len) % 2 ^ 32
      let r2 := stream_recv_data st1 net1 remainder
      match r2.2.2 with
      | Option.none => ⟨r2.1, r2.2.1, .err .ioError⟩
      | some b2 =>
        let st2 := r2.1
        let net2 := r2.2.1
        if st.cipher_type ≠ .none ∧ remainder < st.mac_len then
          ⟨st2, net2, .err .allocError⟩
        else
          let p2 := (decF dec1.2 (b2.take (remainder - st.mac_len))).1
          let plain := if st.cipher_type = .none then b1 ++ b2 else p1 ++ p2
          let packet := plain.take (pack_len + 4)
          let macStored := (b1 ++ b2).drop (pack_len + 4)
          match verify_read_packet macF st packet macStored with
          | some e => ⟨st2, net2, .err e⟩
          | Option.none =>
            let st3 := { st2 with
              seq_num := (st2.seq_num + 1) % 2 ^ 32
              pack := packet ++ macStored
              pack_enc := if st.cipher_type = .none then st2.pack_enc
                          else b1 ++ b2 }
            ⟨st3, net2, .ok packet⟩

/-- The payload of a received packet, per the spec's receive step 9:
the octets at offset 5 through `pack_len + 4 - pad_len` (exclusive) of
the plaintext framed packet. -/
def packet_payload (packet : List Nat) : List Nat :=
  let pack_len := ssh_buf_get_u32 packet
  let pad_len := packet.getD 4 0
  (packet.take (pack_len + 4 - pad_len)).drop 5

/-- Timing model of the `memcmp` call at stream.c:191 (the C library
function is outside src/; the source marks the call with the comment
"[TODO: prevent timing attack]").  A byte-wise short-circuit
comparison: the result is whether the octet sequences agree, paired
with the number of octet comparisons performed before the first
difference stops the scan. -/
def memcmp_time : List Nat → List Nat → Bool × Nat
  | [], [] => (true, 0)
  | [], _ :: _ => (true, 0)
  | _ :: _, [] => (true, 0)
  | a :: as, b :: bs =>
    if a = b then
      let r := memcmp_time as bs
      (r.1, r.2 + 1)
    else (false, 1)

/-- SSH `string` encoding (spec section 3): u32 big-endian length
prefix followed by the octets. -/
def ssh_string (b : List Nat) : List Nat := u32be b.length ++ b

/-- Modelled from the spec: the byte-buffer module
(`ssh_buf_write_data`, `ssh_buf_write_buffer`, `ssh_buf_write_string`)
is not under src/.  Per spec section 4.5 every element fed to the
exchange hash — version banners, KEXINIT payloads, host key, public
values and shared secret alike — is encoded as an SSH `string`, so the
three writers used by `dh_kex_hash` all append a u32 length prefix and
the octets of their argument. -/
def ssh_buf_write_elem (buf elem : List Nat) : List Nat :=
  buf ++ ssh_string elem

/-- The octet sequence hashed by `dh_kex_hash`
(src/ssh/kex_dh.c:112-121): the buffer obtained by writing, in the
source's order, the client version banner, the server version banner
(both as stored, without trailing CR/LF — the version-exchange code is
outside src/ and the spec defines the banners this way), the two raw
KEXINIT payloads, the server host key blob, the client DH public
value `e`, the server DH public value `f`, and the shared secret `K`. -/
def dh_kex_hash_data (vc vs ic is_ ks e f k : List Nat) : List Nat :=
  ssh_buf_write_elem (ssh_buf_write_elem (ssh_buf_write_elem
    (ssh_buf_write_elem (ssh_buf_write_elem (ssh_buf_write_elem
      (ssh_buf_write_elem (ssh_buf_write_elem [] vc) vs) ic) is_) ks) e) f) k

/-- `dh_kex_hash` (src/ssh/kex_dh.c:98-136): hash the assembled
buffer with the negotiated hash function (`ssh_hash_compute`,
modelled as the abstract stateless function `hashF` per spec
section 6). -/
def dh_kex_hash (hashF : List Nat → List Nat)
    (vc vs ic is_ ks e f k : List Nat) : List Nat :=
  hashF (dh_kex_hash_data vc vs ic is_ ks e f k)

/-! ## Helper lemmas -/

lemma get_u32_u32be_append (x : Nat) (rest : List Nat) :
    ssh_buf_get_u32 (u32be x ++ rest) = x % 2 ^ 32 := by
  simp only [u32be, ssh_buf_get_u32, List.cons_append, List.nil_append,
    List.getD_cons_zero, List.getD_cons_succ]
  omega

lemma get_u32_small (x : Nat) (rest : List Nat) (h : x < 2 ^ 32) :
    ssh_buf_get_u32 (u32be x ++ rest) = x := by
  rw [get_u32_u32be_append]; omega

/-- The padding arithmetic of `calc_pad_len` for the block lengths the
stream can actually carry (`cipher_block_len ≤ 252`; installed ciphers
have block length 8 or 16, and 0 means none): the source computation
agrees with the spec formula over `block = max(cipher_block_len, 8)`,
lands in [4, 255], and completes the packet to a block multiple. -/
lemma calc_pad_len_facts (p cb : Nat) (hcb : cb ≤ 252) :
    calc_pad_len (p + 5) cb = pad_len_spec p (max cb 8) ∧
    4 ≤ calc_pad_len (p + 5) cb ∧ calc_pad_len (p + 5) cb ≤ 255 ∧
    (p + 5 + calc_pad_len (p + 5) cb) % max cb 8 = 0 := by
  have hcb256 : cb % 256 = cb := Nat.mod_eq_of_lt (by omega)
  have hmax : max cb 8 = if cb < 8 then 8 else cb := by
    rw [Nat.max_def]; split <;> split <;> omega
  have h8 : 8 ≤ max cb 8 := le_max_right _ _
  have h252 : max cb 8 ≤ 252 := max_le hcb (by omega)
  have hpos : 0 < max cb 8 := by omega
  have hm : (p + 5) % max cb 8 < max cb 8 := Nat.mod_lt _ hpos
  have hqr := Nat.div_add_mod (p + 5) (max cb 8)
  have hcalc : calc_pad_len (p + 5) cb =
      if max cb 8 - (p + 5) % max cb 8 < 4 then
        (max cb 8 - (p + 5) % max cb 8 + max cb 8) % 256
      else max cb 8 - (p + 5) % max cb 8 := by
    simp only [calc_pad_len, hcb256, hmax]
  have hspec : pad_len_spec p (max cb 8) =
      if max cb 8 - (p + 5) % max cb 8 < 4 then
        max cb 8 - (p + 5) % max cb 8 + max cb 8
      else max cb 8 - (p + 5) % max cb 8 := by
    simp only [pad_len_spec]
  rw [hcalc, hspec]
  set bs := max cb 8
  set m := (p + 5) % bs with hmdef
  set q := (p + 5) / bs with hqdef
  by_cases hlt : bs - m < 4
  · rw [if_pos hlt, if_pos hlt, Nat.mod_eq_of_lt (by omega)]
    refine ⟨rfl, by omega, by omega, ?_⟩
    have e : p + 5 + (bs - m + bs) = bs * (q + 2) := by
      rw [Nat.mul_add]; omega
    rw [e, Nat.mul_mod_right]
  · rw [if_neg hlt, if_neg hlt]
    refine ⟨rfl, by omega, by omega, ?_⟩
    have e : p + 5 + (bs - m) = bs * (q + 1) := by
      rw [Nat.mul_add]; omega
    rw [e, Nat.mul_mod_right]

/-- Shape of the framed packet for a stream whose packet buffer was
built by `ssh_stream_new_packet` plus a payload append. -/
lemma framed_packet_shape (rand : Nat → List Nat) (st : SSH_STREAM)
    (payload : List Nat) (pad : Nat)
    (hpk : st.pack = u32be 0 ++ ([0] ++ payload))
    (hpl : (if st.cipher_type = .none then List.replicate pad 0xff
            else rand pad).length = pad)
    (hpad : pad = calc_pad_len (payload.length + 5) st.cipher_block_len) :
    framed_packet rand st =
      u32be (1 + payload.length + pad) ++ [pad] ++ payload ++
        (if st.cipher_type = .none then List.replicate pad 0xff
         else rand pad) := by
  have hlen : st.pack.length = payload.length + 5 := by
    rw [hpk]; simp [u32be]
  have hdrop5 : st.pack.drop 5 = payload := by rw [hpk]; rfl
  simp only [framed_packet, hlen, ← hpad]
  set padding := if st.cipher_type = .none then List.replicate pad 0xff
    else rand pad
  rw [List.drop_append_eq_append_drop, hdrop5, hlen]
  have h0 : 5 - (payload.length + 5) = 0 := by omega
  rw [h0, List.drop_zero, List.length_append, hlen, hpl]
  have h1 : payload.length + 5 + pad - 4 = 1 + payload.length + pad := by omega
  rw [h1]; simp [List.append_assoc]

/-! ## Claim theorems -/

/-- C10: `ssh_stream_init` produces seq_num 0, no cipher (block length
0, NULL context) and no MAC (length 0, NULL context); consequently the
effective block length for length discovery is 8, a packet sent on the
fresh stream goes out in cleartext (the wire is exactly the plaintext
framed packet), is padded with the 0xFF filler over block length 8,
carries no MAC octets, and the first packet is sent while seq_num is
still 0 (it becomes 1 only at that send). -/
theorem c10_initial_stream_state :
    ssh_stream_init.seq_num = 0 ∧
    ssh_stream_init.cipher_type = SSH_CIPHER_TYPE.none ∧
    ssh_stream_init.cipher_block_len = 0 ∧
    ssh_stream_init.cipher_ctx = Option.none ∧
    ssh_stream_init.mac_type = SSH_MAC_TYPE.none ∧
    ssh_stream_init.mac_len = 0 ∧
    ssh_stream_init.mac_ctx = Option.none ∧
    (if ssh_stream_init.cipher_block_len = 0 then 8
     else ssh_stream_init.cipher_block_len) = 8 ∧
    ∀ (payload : List Nat) (rand : Nat → List Nat)
      (encF macF : List Nat → List Nat) (writeOk : Bool),
      (ssh_stream_send_packet rand encF macF writeOk
          (build_packet ssh_stream_init payload)).wire =
        u32be (1 + payload.length + calc_pad_len (payload.length + 5) 0) ++
          [calc_pad_len (payload.length + 5) 0] ++ payload ++
          List.replicate (calc_pad_len (payload.length + 5) 0) 0xff ∧
      calc_pad_len (payload.length + 5) 0 = pad_len_spec payload.length 8 ∧
      (ssh_stream_send_packet rand encF macF writeOk
          (build_packet ssh_stream_init payload)).stream.seq_num = 1 := by
  refine ⟨rfl, rfl, rfl, rfl, rfl, rfl, rfl, rfl, ?_⟩
  intro payload rand encF macF writeOk
  have hfp := framed_packet_shape rand (build_packet ssh_stream_init payload)
    payload (calc_pad_len (payload.length + 5) 0)
    (by simp [build_packet, ssh_stream_new_packet, List.append_assoc])
    (by simp [build_packet, ssh_stream_init]) rfl
  have hspec := (calc_pad_len_facts payload.length 0 (by omega)).1
  refine ⟨?_, by simpa using hspec, rfl⟩
  simp only [ssh_stream_send_packet, finish_packet]
  simp only [build_packet, ssh_stream_init, ssh_stream_new_packet] at hfp ⊢
  simp at hfp
  simp [hfp]

/-- C4 (amended): `ssh_stream_send_packet` increments `seq_num` as
soon as `finish_packet` has succeeded and before the socket write
(stream.c:156-161), so the increment happens whether or not the write
succeeds; a failed write does not leave `seq_num` unchanged. -/
theorem c4_seq_incremented_before_write (rand : Nat → List Nat)
    (encF macF : List Nat → List Nat) (writeOk : Bool) (st : SSH_STREAM) :
    (ssh_stream_send_packet rand encF macF writeOk st).stream.seq_num =
      (st.seq_num + 1) % 2 ^ 32 ∧
    (ssh_stream_send_packet rand encF macF writeOk st).ok = writeOk := by
  simp only [ssh_stream_send_packet, finish_packet]
  split <;> exact ⟨rfl, trivial⟩

/-- C4 counterexample: sending on a fresh stream with the socket write
failing (`ssh_net_write_all` returns an error, so the send returns
-1): the stream's sequence number has nevertheless advanced from 0 to
1, refuting the claim that a failed write leaves seq_num unchanged. -/
theorem c4_counterexample :
    (ssh_stream_send_packet (fun n => List.replicate n 0) id (fun _ => [])
        false (build_packet ssh_stream_init [1, 2, 3])).ok = false ∧
    (ssh_stream_send_packet (fun n => List.replicate n 0) id (fun _ => [])
        false (build_packet ssh_stream_init [1, 2, 3])).stream.seq_num = 1 ∧
    (build_packet ssh_stream_init [1, 2, 3]).seq_num = 0 := by decide

/-- C9: the byte comparison performed by the `memcmp` call at
stream.c:191 (modelled by `memcmp_time`, which also counts the octet
comparisons made before an early exit) is not constant-time: on two
pairs of equal-length inputs that both compare unequal, it inspects 1
octet when the difference is at the first position and 4 octets when
it is at the last, so its running time depends on the byte values. -/
theorem c9_memcmp_time_depends_on_data :
    (memcmp_time [0, 0, 0, 0] [1, 0, 0, 0]).1 = false ∧
    (memcmp_time [0, 0, 0, 0] [0, 0, 0, 1]).1 = false ∧
    (memcmp_time [0, 0, 0, 0] [1, 0, 0, 0]).2 = 1 ∧
    (memcmp_time [0, 0, 0, 0] [0, 0, 0, 1]).2 = 4 := by decide

/-- C7: the exchange hash computed by `dh_kex_hash` is the hash of the
concatenation of the eight elements V_C, V_S, I_C, I_S, K_S, e, f, K,
in the source's order, each encoded as an SSH string (u32 big-endian
length prefix followed by the octets). -/
theorem c7_exchange_hash_encoding (hashF : List Nat → List Nat)
    (vc vs ic is_ ks e f k : List Nat) :
    dh_kex_hash hashF vc vs ic is_ ks e f k =
      hashF (ssh_string vc ++ ssh_string vs ++ ssh_string ic ++
        ssh_string is_ ++ ssh_string ks ++ ssh_string e ++
        ssh_string f ++ ssh_string k) := by
  simp [dh_kex_hash, dh_kex_hash_data, ssh_buf_write_elem, List.append_assoc]

/-- C8 counterexample: for the 6-octet payload `05 68 65 6C 6C 6F` on
a fresh (no cipher, no MAC) stream, the wire octets produced by the
code are not the spec's expected
`00 00 00 0C 06 05 68 65 6C 6C 6F FF FF FF FF FF FF`
(whose padding_length byte 6 is inconsistent: the code computes
pad_len = 8 - ((6 + 5) mod 8) = 5). -/
theorem c8_counterexample :
    (ssh_stream_send_packet (fun n => List.replicate n 0) id (fun _ => [])
        true (build_packet ssh_stream_init
          [0x05, 0x68, 0x65, 0x6c, 0x6c, 0x6f])).wire ≠
      [0x00, 0x00, 0x00, 0x0C, 0x06, 0x05, 0x68, 0x65, 0x6C, 0x6C, 0x6F,
       0xFF, 0xFF, 0xFF, 0xFF, 0xFF, 0xFF] := by decide

/-- C8 (amended): with cipher = none and mac = none, sending the
payload `05 68 65 6C 6C 6F` produces exactly the wire octets
`00 00 00 0C 05 05 68 65 6C 6C 6F FF FF FF FF FF` (packet_length 12,
padding_length 5, five 0xFF filler octets, the fixed filler because no
cipher is installed), and receiving those octets on a fresh stream
succeeds and reproduces the payload exactly. -/
theorem c8_null_cipher_wire_example :
    (ssh_stream_send_packet (fun n => List.replicate n 0) id (fun _ => [])
        true (build_packet ssh_stream_init
          [0x05, 0x68, 0x65, 0x6c, 0x6c, 0x6f])).wire =
      [0x00, 0x00, 0x00, 0x0C, 0x05, 0x05, 0x68, 0x65, 0x6C, 0x6C, 0x6F,
       0xFF, 0xFF, 0xFF, 0xFF, 0xFF] ∧
    (ssh_stream_recv_packet (fun (c : Unit) b => (b, c)) (fun _ => [])
        ssh_stream_init ()
        [0x00, 0x00, 0x00, 0x0C, 0x05, 0x05, 0x68, 0x65, 0x6C, 0x6C, 0x6F,
         0xFF, 0xFF, 0xFF, 0xFF, 0xFF]).result =
      .ok [0x00, 0x00, 0x00, 0x0C, 0x05, 0x05, 0x68, 0x65, 0x6C, 0x6C, 0x6F,
           0xFF, 0xFF, 0xFF, 0xFF, 0xFF] ∧
    packet_payload [0x00, 0x00, 0x00, 0x0C, 0x05, 0x05, 0x68, 0x65, 0x6C,
        0x6C, 0x6F, 0xFF, 0xFF, 0xFF, 0xFF, 0xFF] =
      [0x05, 0x68, 0x65, 0x6c, 0x6c, 0x6f] := by decide

/-- C2: for every sent packet, the pad length computed by
`calc_pad_len` equals the spec formula
`block - ((payload_len + 5) mod block)` — increased by `block` when
below 4 — with `block = max(cipher_block_len, 8)`; it lies in
[4, 255]; the wire packet_length field decodes to
`1 + payload_len + pad_len`; and `(packet_length + 4)` is a multiple
of `block`.  The hypothesis `cipher_block_len ≤ 252` covers every
installable cipher (block length 8 or 16); for 253-255 the `uint8_t`
addition in the source would wrap. -/
theorem c2_padding_arithmetic (payload : List Nat) (st : SSH_STREAM)
    (rand : Nat → List Nat) (encF macF : List Nat → List Nat)
    (hcb : st.cipher_block_len ≤ 252)
    (hlen : payload.length + 300 < 2 ^ 32)
    (hrand : ∀ n, (rand n).length = n) :
    calc_pad_len (payload.length + 5) st.cipher_block_len =
      pad_len_spec payload.length (max st.cipher_block_len 8) ∧
    4 ≤ calc_pad_len (payload.length + 5) st.cipher_block_len ∧
    calc_pad_len (payload.length + 5) st.cipher_block_len ≤ 255 ∧
    ssh_buf_get_u32
        (finish_packet rand encF macF (build_packet st payload)).1.pack =
      1 + payload.length +
        calc_pad_len (payload.length + 5) st.cipher_block_len ∧
    (ssh_buf_get_u32
        (finish_packet rand encF macF (build_packet st payload)).1.pack +
      4) % max st.cipher_block_len 8 = 0 := by
  obtain ⟨hspec, h4, h255, hdvd⟩ :=
    calc_pad_len_facts payload.length st.cipher_block_len hcb
  set pad := calc_pad_len (payload.length + 5) st.cipher_block_len with hpad
  have hfp := framed_packet_shape rand (build_packet st payload) payload pad
    (by simp [build_packet, ssh_stream_new_packet, List.append_assoc])
    (by split <;> simp [hrand])
    hpad
  have hpk : (finish_packet rand encF macF (build_packet st payload)).1.pack =
      framed_packet rand (build_packet st payload) := by
    simp only [finish_packet]; split <;> rfl
  have hg : ssh_buf_get_u32
      (finish_packet rand encF macF (build_packet st payload)).1.pack =
      1 + payload.length + pad := by
    rw [hpk, hfp, List.append_assoc, List.append_assoc]
    exact get_u32_small _ _ (by omega)
  refine ⟨hspec, h4, h255, hg, ?_⟩
  rw [hg]
  have he : 1 + payload.length + pad + 4 = payload.length + 5 + pad := by omega
  rw [he]
  exact hdvd

theorem c2_padding_arithmetic_witness :
    calc_pad_len (([1, 2, 3] : List Nat).length + 5)
        ssh_stream_init.cipher_block_len =
      pad_len_spec ([1, 2, 3] : List Nat).length
        (max ssh_stream_init.cipher_block_len 8) ∧
    4 ≤ calc_pad_len (([1, 2, 3] : List Nat).length + 5)
        ssh_stream_init.cipher_block_len ∧
    calc_pad_len (([1, 2, 3] : List Nat).length + 5)
        ssh_stream_init.cipher_block_len ≤ 255 ∧
    ssh_buf_get_u32
        (finish_packet (fun n => List.replicate n 0) id (fun _ => [])
          (build_packet ssh_stream_init [1, 2, 3])).1.pack =
      1 + ([1, 2, 3] : List Nat).length +
        calc_pad_len (([1, 2, 3] : List Nat).length + 5)
          ssh_stream_init.cipher_block_len ∧
    (ssh_buf_get_u32
        (finish_packet (fun n => List.replicate n 0) id (fun _ => [])
          (build_packet ssh_stream_init [1, 2, 3])).1.pack +
      4) % max ssh_stream_init.cipher_block_len 8 = 0 :=
  c2_padding_arithmetic [1, 2, 3] ssh_stream_init
    (fun n => List.replicate n 0) id (fun _ => [])
    (by decide) (by decide) (fun n => by simp)

/-- C3: when a MAC is installed, the sent wire is the
ciphertext-or-cleartext framed packet followed by the MAC octets
computed over the 4-octet big-endian sequence number concatenated
with the unencrypted framed packet; the MAC octets are appended
after encryption (they are never run through the cipher), and the
packet_length field decodes to the framed packet length minus 4,
which never counts the MAC octets. -/
theorem c3_mac_construction (rand : Nat → List Nat)
    (encF macF : List Nat → List Nat) (writeOk : Bool) (st : SSH_STREAM)
    (hmac : st.mac_type ≠ SSH_MAC_TYPE.none)
    (hpack : 5 ≤ st.pack.length)
    (hrand : ∀ n, (rand n).length = n) :
    (ssh_stream_send_packet rand encF macF writeOk st).wire =
      (if st.cipher_type = SSH_CIPHER_TYPE.none then framed_packet rand st
       else encF (framed_packet rand st)) ++
        macF (mac_input st.seq_num (framed_packet rand st)) ∧
    ssh_buf_get_u32 (framed_packet rand st) =
      ((framed_packet rand st).length - 4) % 2 ^ 32 ∧
    (framed_packet rand st).length =
      st.pack.length + calc_pad_len st.pack.length st.cipher_block_len := by
  set pad := calc_pad_len st.pack.length st.cipher_block_len with hpaddef
  set padding := if st.cipher_type = SSH_CIPHER_TYPE.none
    then List.replicate pad 0xff else rand pad with hpddef
  have hpl : padding.length = pad := by
    rw [hpddef]; split <;> simp [hrand]
  have hfpdef : framed_packet rand st =
      u32be ((st.pack ++ padding).length - 4) ++
        ([pad] ++ (st.pack ++ padding).drop 5) := by
    simp only [framed_packet, ← hpaddef, ← hpddef, List.append_assoc]
  have hfplen : (framed_packet rand st).length = st.pack.length + pad := by
    rw [hfpdef]
    simp [u32be, hpl]
    omega
  refine ⟨?_, ?_, hfplen⟩
  · by_cases hct : st.cipher_type = SSH_CIPHER_TYPE.none
    · simp [ssh_stream_send_packet, finish_packet, mac_input, hct, hmac]
    · simp [ssh_stream_send_packet, finish_packet, mac_input, hct, hmac]
  · rw [hfplen, hfpdef, get_u32_u32be_append]
    simp [hpl]

/-- A stream with an hmac-like MAC installed, used to instantiate the
claims about MAC-carrying streams at concrete inputs. -/
def macStreamW : SSH_STREAM :=
  { seq_num := 7
    pack := [0, 0, 0, 0, 0, 1]
    pack_enc := []
    net_buffer := []
    cipher_type := .none
    cipher_block_len := 0
    cipher_ctx := Option.none
    mac_type := .mac
    mac_len := 2
    mac_ctx := some () }

theorem c3_mac_construction_witness :
    (ssh_stream_send_packet (fun n => List.replicate n 0) id
        (fun _ => [9, 9]) true macStreamW).wire =
      (if macStreamW.cipher_type = SSH_CIPHER_TYPE.none
       then framed_packet (fun n => List.replicate n 0) macStreamW
       else id (framed_packet (fun n => List.replicate n 0) macStreamW)) ++
        (fun _ => [9, 9]) (mac_input macStreamW.seq_num
          (framed_packet (fun n => List.replicate n 0) macStreamW)) ∧
    ssh_buf_get_u32 (framed_packet (fun n => List.replicate n 0) macStreamW) =
      ((framed_packet (fun n => List.replicate n 0) macStreamW).length - 4) %
        2 ^ 32 ∧
    (framed_packet (fun n => List.replicate n 0) macStreamW).length =
      macStreamW.pack.length +
        calc_pad_len macStreamW.pack.length macStreamW.cipher_block_len :=
  c3_mac_construction (fun n => List.replicate n 0) id (fun _ => [9, 9])
    true macStreamW (by decide) (by decide) (fun n => by simp)

/-! ## Receive-path helper lemmas -/

lemma stream_recv_data_seq (st : SSH_STREAM) (net : List Nat) (n : Nat) :
    (stream_recv_data st net n).1.seq_num = st.seq_num := by
  simp only [stream_recv_data]
  split <;> rfl

lemma stream_recv_data_length (st : SSH_STREAM) (net : List Nat) (n : Nat)
    (b : List Nat) (h : (stream_recv_data st net n).2.2 = some b) :
    b.length = n := by
  simp only [stream_recv_data] at h
  split at h
  case isTrue hc =>
    simp only [Option.some.injEq] at h
    subst h
    simp [List.length_take]
    omega
  case isFalse hc => simp at h

lemma stream_recv_data_empty (st : SSH_STREAM) (net : List Nat) (n : Nat)
    (hnb : st.net_buffer = []) (h : n ≤ net.length) :
    stream_recv_data st net n = (st, net.drop n, some (net.take n)) := by
  obtain ⟨sq, pk, pe, nb, ct, cb, cc, mt, ml, mc⟩ := st
  simp only at hnb
  subst hnb
  simp [stream_recv_data, h]

/-- Every receive either succeeds or leaves the sequence number
untouched: `seq_num` is only assigned on the all-checks-passed path
(stream.c:280). -/
lemma recv_ok_or_seq_eq {C : Type} (decF : C → List Nat → List Nat × C)
    (macF : List Nat → List Nat) (st : SSH_STREAM) (ctx : C)
    (net : List Nat) :
    (∃ p, (ssh_stream_recv_packet decF macF st ctx net).result =
      RecvResult.ok p) ∨
    (ssh_stream_recv_packet decF macF st ctx net).stream.seq_num =
      st.seq_num := by
  unfold ssh_stream_recv_packet
  simp only [stream_recv_data_seq]
  repeat'
    first
      | (left; exact ⟨_, rfl⟩)
      | (right; simp only [stream_recv_data_seq]; done)
      | split

/-- C6: whenever `ssh_stream_recv_packet` fails — MAC mismatch, length
or padding errors, read failures — the receiving stream's sequence
number is left exactly as it was; it is not incremented past the bad
packet. -/
theorem c6_recv_failure_seq_unchanged {C : Type}
    (decF : C → List Nat → List Nat × C) (macF : List Nat → List Nat)
    (st : SSH_STREAM) (ctx : C) (net : List Nat) (e : RECV_ERROR)
    (h : (ssh_stream_recv_packet decF macF st ctx net).result =
      RecvResult.err e) :
    (ssh_stream_recv_packet decF macF st ctx net).stream.seq_num =
      st.seq_num := by
  rcases recv_ok_or_seq_eq decF macF st ctx net with ⟨p, hp⟩ | hs
  · rw [hp] at h; cases h
  · exact hs

theorem c6_recv_failure_seq_unchanged_witness :
    (ssh_stream_recv_packet (fun (c : Unit) b => (b, c)) (fun _ => [3])
        { ssh_stream_init with mac_type := .mac, mac_len := 1, seq_num := 7 }
        ()
        [0, 0, 0, 12, 6, 1, 2, 3, 4, 5, 255, 255, 255, 255, 255, 255, 9]
      ).result = RecvResult.err RECV_ERROR.macMismatch ∧
    (ssh_stream_recv_packet (fun (c : Unit) b => (b, c)) (fun _ => [3])
        { ssh_stream_init with mac_type := .mac, mac_len := 1, seq_num := 7 }
        ()
        [0, 0, 0, 12, 6, 1, 2, 3, 4, 5, 255, 255, 255, 255, 255, 255, 9]
      ).stream.seq_num =
      ({ ssh_stream_init with mac_type := .mac, mac_len := 1, seq_num := 7 } :
        SSH_STREAM).seq_num :=
  ⟨by decide,
   c6_recv_failure_seq_unchanged (fun (c : Unit) b => (b, c)) (fun _ => [3])
     { ssh_stream_init with mac_type := .mac, mac_len := 1, seq_num := 7 }
     () [0, 0, 0, 12, 6, 1, 2, 3, 4, 5, 255, 255, 255, 255, 255, 255, 9]
     RECV_ERROR.macMismatch (by decide)⟩

lemma verify_read_packet_err_mem (macF : List Nat → List Nat)
    (st : SSH_STREAM) (packet macStored : List Nat) (e : RECV_ERROR)
    (h : verify_read_packet macF st packet macStored = some e) :
    e = RECV_ERROR.invalidPadding ∨ e = RECV_ERROR.badAlign ∨
      e = RECV_ERROR.macMismatch := by
  simp only [verify_read_packet] at h
  repeat' split at h
  all_goals simp_all

lemma verify_read_packet_badAlign (macF : List Nat → List Nat)
    (st : SSH_STREAM) (packet macStored : List Nat)
    (h : verify_read_packet macF st packet macStored =
      some RECV_ERROR.badAlign) :
    packet.length %
      (if st.cipher_block_len ≠ 0 then st.cipher_block_len else 8) ≠ 0 := by
  simp only [verify_read_packet] at h
  repeat' split at h
  all_goals simp_all

/-- C5 (amended): after the first block is read (and decrypted when a
cipher is installed), `ssh_stream_recv_packet` rejects with
InvalidLength exactly when the parsed pack_len is 0 or greater than
65536 (so pack_len = 65536 is accepted, unlike the claim's 65535
bound); the block-divisibility condition `(pack_len + 4) mod block` is
not part of that check: it is verified only after the whole packet has
been read, behind the pad-byte range check, and rejected as a distinct
error. -/
theorem c5_recv_length_validation {C : Type}
    (decF : C → List Nat → List Nat × C) (macF : List Nat → List Nat)
    (st : SSH_STREAM) (ctx : C) (net b1 : List Nat)
    (hdec : ∀ c b, ((decF c b).1).length = b.length)
    (hcb : st.cipher_block_len ≤ 255) (hml : st.mac_len ≤ 65536)
    (h1 : (stream_recv_data st net
        (if st.cipher_block_len = 0 then 8 else st.cipher_block_len)).2.2 =
      some b1) :
    ((ssh_stream_recv_packet decF macF st ctx net).result =
        RecvResult.err RECV_ERROR.invalidLength ↔
      (ssh_buf_get_u32 (if st.cipher_type = SSH_CIPHER_TYPE.none then b1
          else (decF ctx b1).1) = 0 ∨
       ssh_buf_get_u32 (if st.cipher_type = SSH_CIPHER_TYPE.none then b1
          else (decF ctx b1).1) > 65536)) ∧
    ((ssh_stream_recv_packet decF macF st ctx net).result =
        RecvResult.err RECV_ERROR.badAlign →
      (ssh_buf_get_u32 (if st.cipher_type = SSH_CIPHER_TYPE.none then b1
          else (decF ctx b1).1) + 4) %
        (if st.cipher_block_len ≠ 0 then st.cipher_block_len else 8) ≠ 0) := by
  unfold ssh_stream_recv_packet
  simp only [h1]
  set pl := ssh_buf_get_u32 (if st.cipher_type = SSH_CIPHER_TYPE.none then b1
    else (decF ctx b1).1) with hpl
  by_cases hc : pl = 0 ∨ pl > 65536
  · rw [if_pos hc]
    exact ⟨by simp [hc], by simp⟩
  · rw [if_neg hc]
    set fb := if st.cipher_block_len = 0 then 8 else st.cipher_block_len with hfb
    set rem := (pl + st.mac_len + 4 + 2 ^ 32 - fb) % 2 ^ 32 with hrem
    cases hr2 : (stream_recv_data (stream_recv_data st net fb).1
        (stream_recv_data st net fb).2.1 rem).2.2 with
    | none =>
      simp only [hr2]
      exact ⟨by simp [hc], by simp⟩
    | some b2 =>
      simp only [hr2]
      by_cases hal : st.cipher_type ≠ SSH_CIPHER_TYPE.none ∧ rem < st.mac_len
      · rw [if_pos hal]
        exact ⟨by simp [hc], by simp⟩
      · rw [if_neg hal]
        cases hv : verify_read_packet macF st
            (List.take (pl + 4)
              (if st.cipher_type = SSH_CIPHER_TYPE.none then b1 ++ b2
               else (if st.cipher_type = SSH_CIPHER_TYPE.none then b1
                 else (decF ctx b1).1) ++
                 (decF (decF ctx b1).2 (List.take (rem - st.mac_len) b2)).1))
            (List.drop (pl + 4) (b1 ++ b2)) with
        | none =>
          simp only [hv]
          exact ⟨by simp [hc], by simp⟩
        | some e =>
          simp only [hv]
          refine ⟨⟨fun hres => ?_, fun h' => absurd h' hc⟩, fun hres => ?_⟩
          · exfalso
            rcases verify_read_packet_err_mem _ _ _ _ _ hv with he | he | he <;>
              (subst he; simp at hres)
          · have he : e = RECV_ERROR.badAlign := by simpa using hres
            subst he
            have hmod := verify_read_packet_badAlign _ _ _ _ hv
            have hb1 : b1.length = fb := stream_recv_data_length _ _ _ _ h1
            have hb2 : b2.length = rem := stream_recv_data_length _ _ _ _ hr2
            have hpl65536 : pl ≤ 65536 := by omega
            have hfb255 : fb ≤ 255 := by rw [hfb]; split <;> omega
            have hlen : (List.take (pl + 4)
                (if st.cipher_type = SSH_CIPHER_TYPE.none then b1 ++ b2
                 else (if st.cipher_type = SSH_CIPHER_TYPE.none then b1
                   else (decF ctx b1).1) ++
                   (decF (decF ctx b1).2
                     (List.take (rem - st.mac_len) b2)).1)).length = pl + 4 := by
              rw [List.length_take]
              split
              case isTrue hct =>
                simp only [List.length_append, hb1, hb2]
                rw [hrem]
                omega
              case isFalse hct =>
                have hremml : ¬ rem < st.mac_len := fun hlt => hal ⟨hct, hlt⟩
                simp only [List.length_append, hdec, List.length_take, hb1, hb2]
                rw [hrem] at hremml ⊢
                omega
            rw [hlen] at hmod
            exact hmod

/-- C5 counterexample: feeding the receiver a first block with
pack_len = 65536 (which is greater than 65535, so the claim demands an
InvalidLength rejection) does not produce InvalidLength: the code's
bound is `pack_len > 65536`, so it accepts the length and fails later
(here with a read error, since no further octets arrive). -/
theorem c5_counterexample :
    ssh_buf_get_u32 [0, 1, 0, 0, 0, 0, 0, 0] = 65536 ∧
    (ssh_stream_recv_packet (fun (c : Unit) b => (b, c)) (fun _ => [])
        ssh_stream_init () [0, 1, 0, 0, 0, 0, 0, 0]).result =
      RecvResult.err RECV_ERROR.ioError ∧
    (ssh_stream_recv_packet (fun (c : Unit) b => (b, c)) (fun _ => [])
        ssh_stream_init () [0, 1, 0, 0, 0, 0, 0, 0]).result ≠
      RecvResult.err RECV_ERROR.invalidLength := by decide

theorem c5_recv_length_validation_witness :
    ((ssh_stream_recv_packet (fun (c : Unit) b => (b, c)) (fun _ => [])
        ssh_stream_init () [0, 0, 0, 0, 0, 0, 0, 0]).result =
        RecvResult.err RECV_ERROR.invalidLength ↔
      (ssh_buf_get_u32
          (if ssh_stream_init.cipher_type = SSH_CIPHER_TYPE.none
           then [0, 0, 0, 0, 0, 0, 0, 0]
           else ((fun (c : Unit) b => (b, c)) () [0, 0, 0, 0, 0, 0, 0, 0]).1) =
        0 ∨
       ssh_buf_get_u32
          (if ssh_stream_init.cipher_type = SSH_CIPHER_TYPE.none
           then [0, 0, 0, 0, 0, 0, 0, 0]
           else ((fun (c : Unit) b => (b, c)) () [0, 0, 0, 0, 0, 0, 0, 0]).1) >
        65536)) ∧
    ((ssh_stream_recv_packet (fun (c : Unit) b => (b, c)) (fun _ => [])
        ssh_stream_init () [0, 0, 0, 0, 0, 0, 0, 0]).result =
        RecvResult.err RECV_ERROR.badAlign →
      (ssh_buf_get_u32
          (if ssh_stream_init.cipher_type = SSH_CIPHER_TYPE.none
           then [0, 0, 0, 0, 0, 0, 0, 0]
           else ((fun (c : Unit) b => (b, c)) () [0, 0, 0, 0, 0, 0, 0, 0]).1) +
        4) %
        (if ssh_stream_init.cipher_block_len ≠ 0
         then ssh_stream_init.cipher_block_len else 8) ≠ 0) :=
  c5_recv_length_validation (fun (c : Unit) b => (b, c)) (fun _ => [])
    ssh_stream_init () [0, 0, 0, 0, 0, 0, 0, 0] [0, 0, 0, 0, 0, 0, 0, 0]
    (fun c b => rfl) (by decide) (by decide) (by decide)

lemma get_u32_take (l : List Nat) (n : Nat) (h : 4 ≤ n) :
    ssh_buf_get_u32 (l.take n) = ssh_buf_get_u32 l := by
  have e : ∀ m, m < n → (l.take n).getD m 0 = l.getD m 0 := by
    intro m hm
    rw [List.getD_eq_get?, List.getD_eq_get?, List.get?_take hm]
  unfold ssh_buf_get_u32
  rw [e 0 (by omega), e 1 (by omega), e 2 (by omega), e 3 (by omega)]

lemma getD4_shape (x pad : Nat) (rest : List Nat) :
    (u32be x ++ ([pad] ++ rest)).getD 4 0 = pad := by
  simp [u32be]

lemma take_payload_shape (x pad : Nat) (payload rest : List Nat) :
    ((u32be x ++ ([pad] ++ (payload ++ rest))).take
      (payload.length + 5)).drop 5 = payload := by
  have h1 : u32be x ++ ([pad] ++ (payload ++ rest)) =
      (u32be x ++ [pad]) ++ (payload ++ rest) := by
    simp [List.append_assoc]
  have h2 : (u32be x ++ [pad]).length = 5 := by simp [u32be]
  rw [h1, List.take_append_eq_append_take,
    List.take_of_length_le (le_trans (le_of_eq h2) (by omega)), h2,
    show payload.length + 5 - 5 = payload.length from by omega,
    List.take_append_eq_append_take, List.take_length,
    show payload.length - payload.length = 0 from by omega, List.take_zero,
    List.append_nil]
  exact List.drop_left' h2

/-- C1: round trip.  For a packet built by `ssh_stream_new_packet`
plus a payload append and sent with `ssh_stream_send_packet`, a
receiving stream with matching cipher/MAC configuration, equal
sequence number and an empty read-ahead buffer recovers, via
`ssh_stream_recv_packet`, exactly the sent framed packet, and the
octets at offset 5 through `pack_len + 4 - pad_len` of it are the
original payload byte-for-byte.  The hypotheses are the collaborator
contracts of the spec: the CSPRNG and MAC produce their advertised
number of octets, the cipher is length-preserving, and decryption
inverts encryption chunk-wise in the two pieces the receiver decrypts
(first block, then the remainder); the payload-size bound keeps
`packet_length` within the receiver's 65536 limit. -/
theorem c1_round_trip {C : Type}
    (decF : C → List Nat → List Nat × C) (ctx : C)
    (rand : Nat → List Nat) (encF macF : List Nat → List Nat)
    (ss rs : SSH_STREAM) (payload : List Nat)
    (hpack : ss.pack = u32be 0 ++ ([0] ++ payload))
    (hct : rs.cipher_type = ss.cipher_type)
    (hcb : rs.cipher_block_len = ss.cipher_block_len)
    (hmt : rs.mac_type = ss.mac_type)
    (hml : rs.mac_len = ss.mac_len)
    (hseq : rs.seq_num = ss.seq_num)
    (hnb : rs.net_buffer = [])
    (hblock : ss.cipher_block_len = 0 ∨
      (8 ≤ ss.cipher_block_len ∧ ss.cipher_block_len ≤ 252))
    (hplen : payload.length ≤ 65000)
    (hmlb : ss.mac_len ≤ 65536)
    (hcons : ss.mac_type = SSH_MAC_TYPE.none → ss.mac_len = 0)
    (hrand : ∀ n, (rand n).length = n)
    (hmacl : ∀ x, (macF x).length = ss.mac_len)
    (hencl : (encF (framed_packet rand ss)).length =
      (framed_packet rand ss).length)
    (hdec1 : (decF ctx ((encF (framed_packet rand ss)).take
        (max ss.cipher_block_len 8))).1 =
      (framed_packet rand ss).take (max ss.cipher_block_len 8))
    (hdec2 : (decF (decF ctx ((encF (framed_packet rand ss)).take
        (max ss.cipher_block_len 8))).2
        ((encF (framed_packet rand ss)).drop (max ss.cipher_block_len 8))).1 =
      (framed_packet rand ss).drop (max ss.cipher_block_len 8)) :
    (ssh_stream_recv_packet decF macF rs ctx
        (ssh_stream_send_packet rand encF macF true ss).wire).result =
      RecvResult.ok (framed_packet rand ss) ∧
    packet_payload (framed_packet rand ss) = payload ∧
    (ssh_stream_recv_packet decF macF rs ctx
        (ssh_stream_send_packet rand encF macF true ss).wire).net = [] ∧
    (ssh_stream_recv_packet decF macF rs ctx
        (ssh_stream_send_packet rand encF macF true ss).wire).stream.seq_num =
      (rs.seq_num + 1) % 2 ^ 32 := by
  obtain ⟨hspec, h4, h255, hdvd⟩ := calc_pad_len_facts payload.length
    ss.cipher_block_len (by rcases hblock with h | ⟨h1', h2'⟩ <;> omega)
  set pad := calc_pad_len (payload.length + 5) ss.cipher_block_len with hpad
  set bs := max ss.cipher_block_len 8 with hbs
  have hbs8 : 8 ≤ bs := le_max_right _ _
  have hbs252 : bs ≤ 252 := max_le (by rcases hblock with h | ⟨h1', h2'⟩ <;> omega) (by omega)
  set fp := framed_packet rand ss with hfpdef
  have hpadding : (if ss.cipher_type = SSH_CIPHER_TYPE.none
      then List.replicate pad 0xff else rand pad).length = pad := by
    split <;> simp [hrand]
  have hfpshape := framed_packet_shape rand ss payload pad hpack hpadding hpad
  have hfplen : fp.length = payload.length + 5 + pad := by
    rw [hfpdef, hfpshape]
    simp [u32be, hpadding]
    omega
  have hgu : ssh_buf_get_u32 fp = 1 + payload.length + pad := by
    rw [hfpdef, hfpshape]
    exact get_u32_small _ _ (by omega)
  have hdvd' : fp.length % bs = 0 := by rw [hfplen]; exact hdvd
  have hbsle : bs ≤ fp.length :=
    Nat.le_of_dvd (by omega) (Nat.dvd_of_mod_eq_zero hdvd')
  have hwire : (ssh_stream_send_packet rand encF macF true ss).wire =
      (if ss.cipher_type = SSH_CIPHER_TYPE.none then fp else encF fp) ++
      (if ss.mac_type = SSH_MAC_TYPE.none then []
       else macF (u32be ss.seq_num ++ fp)) := by
    by_cases hc : ss.cipher_type = SSH_CIPHER_TYPE.none <;>
      simp [ssh_stream_send_packet, finish_packet, hc, hfpdef]
  set body := if ss.cipher_type = SSH_CIPHER_TYPE.none then fp
    else encF fp with hbody
  set macB := if ss.mac_type = SSH_MAC_TYPE.none then []
    else macF (u32be ss.seq_num ++ fp) with hmacB
  have hbodylen : body.length = fp.length := by
    rw [hbody]; split
    · rfl
    · exact hencl
  have hmacBlen : macB.length = ss.mac_len := by
    rw [hmacB]; split
    case isTrue hmtn => simp [hcons hmtn]
    case isFalse => exact hmacl _
  set w := (ssh_stream_send_packet rand encF macF true ss).wire with hw
  have hwlen : w.length = fp.length + ss.mac_len := by
    rw [hwire, List.length_append, hbodylen, hmacBlen]
  have hfbeq : (if rs.cipher_block_len = 0 then 8
      else rs.cipher_block_len) = bs := by
    rw [hcb, hbs]
    rcases hblock with h | ⟨h1', h2'⟩
    · simp [h]
    · rw [if_neg (by omega), Nat.max_def]
      split <;> omega
  have hfbeq2 : (if rs.cipher_block_len ≠ 0 then rs.cipher_block_len
      else 8) = bs := by
    rw [hcb, hbs]
    rcases hblock with h | ⟨h1', h2'⟩
    · simp [h]
    · rw [if_pos (by omega), Nat.max_def]
      split <;> omega
  have hr1 : stream_recv_data rs w bs = (rs, w.drop bs, some (w.take bs)) :=
    stream_recv_data_empty rs w bs hnb (by rw [hwlen]; omega)
  have hb1 : w.take bs = body.take bs := by
    rw [hwire, List.take_append_eq_append_take,
      show bs - body.length = 0 by omega, List.take_zero, List.append_nil]
  have hp1 : (if rs.cipher_type = SSH_CIPHER_TYPE.none then w.take bs
      else (decF ctx (w.take bs)).1) = fp.take bs := by
    rw [hb1, hct]
    by_cases hc : ss.cipher_type = SSH_CIPHER_TYPE.none
    · rw [if_pos hc]
      simp [hbody, hc]
    · rw [if_neg hc, show body = encF fp by rw [hbody, if_neg hc]]
      exact hdec1
  have hgu_take : ssh_buf_get_u32 (fp.take bs) =
      1 + payload.length + pad := by
    rw [get_u32_take _ _ (by omega), hgu]
  have hrem : (1 + payload.length + pad + rs.mac_len + 4 + 2 ^ 32 - bs) %
      2 ^ 32 = 1 + payload.length + pad + 4 + ss.mac_len - bs := by
    rw [hml]
    have hble2 : bs ≤ 1 + payload.length + pad + 4 := by omega
    omega
  set R := 1 + payload.length + pad + 4 + ss.mac_len - bs with hR
  have hwdlen : (w.drop bs).length = R := by
    rw [List.length_drop, hwlen, hfplen]
    omega
  have hr2 : stream_recv_data rs (w.drop bs) R =
      (rs, (w.drop bs).drop R, some ((w.drop bs).take R)) :=
    stream_recv_data_empty rs (w.drop bs) R hnb (by rw [hwdlen])
  have hwdrop : w.drop bs = body.drop bs ++ macB := by
    rw [hwire, List.drop_append_eq_append_drop,
      show bs - body.length = 0 by omega, List.drop_zero]
  have hb2all : (w.drop bs).take R = w.drop bs :=
    List.take_of_length_le (by rw [hwdlen])
  have hnet2 : (w.drop bs).drop R = [] :=
    List.drop_eq_nil_of_le (by rw [hwdlen])
  have hb2take : (w.drop bs).take ((w.drop bs).take R).length =
      (w.drop bs).take R := by rw [hb2all]; exact List.take_length _
  have hgd : fp.getD 4 0 = pad := by
    rw [hfpdef, hfpshape]; exact getD4_shape _ _ _
  have hpayload : packet_payload fp = payload := by
    simp only [packet_payload, hgu, hgd]
    rw [show 1 + payload.length + pad + 4 - pad = payload.length + 5 by omega]
    rw [hfpdef, hfpshape]
    exact take_payload_shape _ _ _ _
  have hverify : verify_read_packet macF rs fp macB = Option.none := by
    simp only [verify_read_packet, hgd, hfbeq2]
    rw [if_neg (show ¬(pad < 4 ∨ pad > fp.length - 5) by rw [hfplen]; omega)]
    rw [if_neg (show ¬(fp.length % bs ≠ 0) by simp [hdvd'])]
    by_cases hmtc : rs.mac_type = SSH_MAC_TYPE.none
    · rw [if_neg (by simp [hmtc])]
    · have hssmt : ss.mac_type ≠ SSH_MAC_TYPE.none := by
        rw [← hmt]; exact hmtc
      have hmacBval : macB = macF (mac_input rs.seq_num fp) := by
        rw [hmacB, if_neg hssmt]
        simp only [mac_input]
        rw [hseq]
      rw [if_pos hmtc,
        if_neg (show ¬((macF (mac_input rs.seq_num fp)).take rs.mac_len ≠
          macB.take rs.mac_len) by rw [hmacBval]; simp)]
  have hpacket : List.take (1 + payload.length + pad + 4)
      (if rs.cipher_type = SSH_CIPHER_TYPE.none
       then List.take bs w ++ List.take R (List.drop bs w)
       else List.take bs fp ++
         (decF (decF ctx (List.take bs w)).2
           (List.take (R - rs.mac_len) (List.take R (List.drop bs w)))).1) =
      fp := by
    rw [hct, hml]
    by_cases hc : ss.cipher_type = SSH_CIPHER_TYPE.none
    · rw [if_pos hc]
      have hbfp : body = fp := by rw [hbody, if_pos hc]
      rw [hb2all, hb1, hwdrop, hbfp, ← List.append_assoc,
        List.take_append_drop]
      exact List.take_left' (by omega)
    · rw [if_neg hc]
      have hbenc : body = encF fp := by rw [hbody, if_neg hc]
      have h5 : List.take (R - ss.mac_len) (List.take R (List.drop bs w)) =
          List.drop bs body := by
        rw [hb2all, hwdrop]
        refine List.take_left' ?_
        rw [List.length_drop, hbodylen]
        omega
      rw [h5, hb1, hbenc, hdec2, List.take_append_drop]
      exact List.take_of_length_le (by omega)
  have hmacStored : List.drop (1 + payload.length + pad + 4)
      (List.take bs w ++ List.take R (List.drop bs w)) = macB := by
    rw [hb2all, List.take_append_drop, hwire]
    exact List.drop_left' (by rw [hbodylen]; omega)
  unfold ssh_stream_recv_packet
  rw [hfbeq]
  simp only [hr1]
  rw [hp1, hgu_take]
  rw [if_neg (show ¬(1 + payload.length + pad = 0 ∨
    1 + payload.length + pad > 65536) by omega)]
  rw [hrem]
  simp only [hr2]
  rw [if_neg (show ¬(rs.cipher_type ≠ SSH_CIPHER_TYPE.none ∧
    R < rs.mac_len) by rw [hml]; rintro ⟨-, hlt⟩; omega)]
  rw [hpacket, hmacStored]
  simp only [hverify]
  exact ⟨trivial, hpayload, hnet2, trivial⟩

/-- A sending stream with an aes-like cipher (block 8 for the identity
test cipher) and a MAC installed, its packet built from payload
[9, 8, 7]. -/
def sendStreamW : SSH_STREAM :=
  { seq_num := 5
    pack := [0, 0, 0, 0, 0, 9, 8, 7]
    pack_enc := []
    net_buffer := []
    cipher_type := .cipher
    cipher_block_len := 8
    cipher_ctx := some ()
    mac_type := .mac
    mac_len := 2
    mac_ctx := some () }

/-- The matching receiving stream for `sendStreamW`. -/
def recvStreamW : SSH_STREAM := { sendStreamW with pack := [] }

theorem c1_round_trip_witness :
    (ssh_stream_recv_packet (fun (c : Unit) b => (b, c))
        (fun l => [l.length % 256, 77]) recvStreamW ()
        (ssh_stream_send_packet (fun n => List.replicate n 1) id
          (fun l => [l.length % 256, 77]) true sendStreamW).wire).result =
      RecvResult.ok (framed_packet (fun n => List.replicate n 1)
        sendStreamW) ∧
    packet_payload (framed_packet (fun n => List.replicate n 1)
        sendStreamW) = [9, 8, 7] ∧
    (ssh_stream_recv_packet (fun (c : Unit) b => (b, c))
        (fun l => [l.length % 256, 77]) recvStreamW ()
        (ssh_stream_send_packet (fun n => List.replicate n 1) id
          (fun l => [l.length % 256, 77]) true sendStreamW).wire).net =
      [] ∧
    (ssh_stream_recv_packet (fun (c : Unit) b => (b, c))
        (fun l => [l.length % 256, 77]) recvStreamW ()
        (ssh_stream_send_packet (fun n => List.replicate n 1) id
          (fun l => [l.length % 256, 77]) true
          sendStreamW).wire).stream.seq_num =
      (recvStreamW.seq_num + 1) % 2 ^ 32 :=
  c1_round_trip (fun (c : Unit) b => (b, c)) ()
    (fun n => List.replicate n 1) id (fun l => [l.length % 256, 77])
    sendStreamW recvStreamW [9, 8, 7]
    (by decide) rfl rfl rfl rfl rfl rfl (Or.inr (by decide)) (by decide)
    (by decide) (by decide) (fun n => by simp) (fun x => rfl) rfl rfl rfl
